import Mathlib

/-!
# AmazeChain raw chain accessors (modules/rawdb/accessors_chain.go)

A shallow embedding of the chain accessors of package rawdb: the functions
that store and fetch headers, bodies, blocks, the hash to number index and the
transaction index on top of a key-value store with named tables.

The key-value store, the record codec, the hash functions and the number
text encoding live outside the embedded file.  The store is modelled as one
finite map per table together with a description of which calls fail; the
codec and hash functions are fields of the structure Codec, a parameter of every
accessor.
-/

namespace Amc

/-- Byte strings: keys and values of the store. -/
abbrev Bytes := List Nat

/-- Modelled from the spec: types.Hash, a fixed-width array of 32 raw bytes
("Hash keys are fixed-width raw bytes"); the slice expression hash[:] is the
field bytes. -/
structure Hash where
  bytes : Bytes
  size : bytes.length = 32
deriving DecidableEq

/-- The zero value types.Hash{}. -/
def Hash.zero : Hash := ⟨List.replicate 32 0, by simp⟩

/-- Error values returned by the store, the codec and the accessors. -/
inductive Err where
  | notFound
  | storageUnavailable
  | corruptRecord
  | encodeFailed
  | failedHeaderTypes
deriving DecidableEq, Repr

/-- Modelled from the spec: block.Header, "number, parent hash, state-root
commitment, and consensus-specific fields". -/
structure Header where
  number : Nat
  parentHash : Hash
  root : Hash
  extra : Bytes
deriving DecidableEq

/-- Values of the interface block.IHeader: either a *block.Header or some other
implementation, which the type assertion of StoreHeader rejects. -/
inductive IHeader where
  | header (h : Header)
  | other
deriving DecidableEq

/-- Modelled from the spec: transaction.Transaction, an uninterpreted payload. -/
structure Transaction where
  payload : Bytes
deriving DecidableEq

/-- Modelled from the spec: block.Body, "the ordered list of transactions
belonging to a header". -/
structure Body where
  txs : List Transaction
deriving DecidableEq

/-- Modelled from the spec: block.Block, "the pairing of exactly one Header and
exactly one Body". -/
structure Block where
  header : Header
  body : Body
deriving DecidableEq

/-- The method block.Header() of a block, as an interface value. -/
def Block.Header (b : Block) : IHeader := .header b.header

/-- The method block.Number64(): the number of the header. -/
def Block.Number64 (b : Block) : Nat := b.header.number

/-- The method block.Body(). -/
def Block.Body (b : Block) : Option Body := some b.body

/-- The method block.Transactions(). -/
def Block.Transactions (b : Block) : List Transaction := b.body.txs

/-- The constructor block.NewBlock(header, txs). -/
def NewBlock (header : Header) (txs : List Transaction) : Block := ⟨header, ⟨txs⟩⟩

/-- Modelled from the spec: the table-name constants of package rawdb, one per
logical table of the persisted state layout. -/
inductive TableName where
  | headerDB
  | bodyDB
  | transactionIndex
  | hashNumberDB
  | receiptsDB
  | latestStateDB
deriving DecidableEq, Repr

/-- The functions the accessors call that are declared outside the embedded
file: the number text encoding and its parser, the header and body record
codec, and the hash functions. -/
structure Codec where
  /-- The method types.Int256.MarshalText. -/
  marshalText : Nat → Except Err Bytes
  /-- The function types.FromHex applied to string(v). -/
  fromHex : Bytes → Except Err Nat
  /-- The method header.Marshal. -/
  headerMarshal : Header → Except Err Bytes
  /-- The call proto.Unmarshal followed by header.FromProtoMessage. -/
  headerUnmarshal : Bytes → Except Err Header
  /-- The method header.Hash. -/
  headerHash : Header → Hash
  /-- The call body.ToProtoMessage followed by proto.Marshal. -/
  bodyMarshal : Body → Except Err Bytes
  /-- The call proto.Unmarshal followed by body.FromProtoMessage. -/
  bodyUnmarshal : Bytes → Except Err Body
  /-- The method tx.Hash, whose error result the accessors discard. -/
  txHash : Transaction → Hash
  /-- The method hash.HexBytes. -/
  hexBytes : Hash → Bytes

/-- Modelled from the spec: db.IDatabase, a key-value store with named tables
offering OpenReader, OpenWriter, Get and Put.  The field tables is the content;
the four flag fields say which calls fail for storage reasons. -/
structure DB where
  tables : TableName → Bytes → Option Bytes
  openReaderFails : TableName → Bool
  openWriterFails : TableName → Bool
  getFails : TableName → Bytes → Bool
  putFails : TableName → Bytes → Bool

/-- The empty store on which no call fails for storage reasons. -/
def DB.empty : DB :=
  ⟨fun _ _ => none, fun _ => false, fun _ => false, fun _ _ => false, fun _ _ => false⟩

/-- A store on which no call fails for storage reasons: Get fails only on an
absent key and Put always writes. -/
def DB.Healthy (db : DB) : Prop :=
  (∀ t, db.openReaderFails t = false) ∧ (∀ t, db.openWriterFails t = false) ∧
  (∀ t k, db.getFails t k = false) ∧ (∀ t k, db.putFails t k = false)

/-- The call db.OpenReader(name). -/
def OpenReader (db : DB) (t : TableName) : Except Err TableName :=
  if db.openReaderFails t then .error .storageUnavailable else .ok t

/-- The call db.OpenWriter(name). -/
def OpenWriter (db : DB) (t : TableName) : Except Err TableName :=
  if db.openWriterFails t then .error .storageUnavailable else .ok t

/-- The call r.Get(key) on a reader of table t. -/
def Get (db : DB) (t : TableName) (key : Bytes) : Except Err Bytes :=
  if db.getFails t key then .error .storageUnavailable
  else match db.tables t key with
    | some v => .ok v
    | none => .error .notFound

/-- The content of the tables after key is bound to v in table t. -/
def writeTable (tables : TableName → Bytes → Option Bytes) (t : TableName) (key v : Bytes) :
    TableName → Bytes → Option Bytes :=
  fun t1 k1 => if t1 = t ∧ k1 = key then some v else tables t1 k1

/-- The call w.Put(key, v) on a writer of table t: a failed Put writes nothing. -/
def Put (db : DB) (t : TableName) (key v : Bytes) : DB × Option Err :=
  if db.putFails t key then (db, some .storageUnavailable)
  else ({ db with tables := writeTable db.tables t key v }, none)

/-- GetHeader (accessors_chain.go:49). -/
def GetHeader (c : Codec) (db : DB) (number : Nat) : Except Err (Header × Hash) :=
  match c.marshalText number with
  | .error e => .error e
  | .ok key =>
    match OpenReader db .headerDB with
    | .error e => .error e
    | .ok r =>
      match Get db r key with
      | .error e => .error e
      | .ok v =>
        match c.headerUnmarshal v with
        | .error e => .error e
        | .ok header => .ok (header, c.headerHash header)

/-- StoreHeader (accessors_chain.go:81).  The results of both Put calls are
discarded. -/
def StoreHeader (c : Codec) (db : DB) (iheader : IHeader) : DB × Option Err :=
  match iheader with
  | .other => (db, some .failedHeaderTypes)
  | .header header =>
    match c.marshalText header.number with
    | .error e => (db, some e)
    | .ok key =>
      match c.headerMarshal header with
      | .error e => (db, some e)
      | .ok v =>
        match OpenWriter db .headerDB with
        | .error e => (db, some e)
        | .ok w =>
          let db1 := (Put db w key v).1
          let db2 := (Put db1 w (c.headerHash header).bytes key).1
          (db2, none)

/-- GetHeaderByHash (accessors_chain.go:110). -/
def GetHeaderByHash (c : Codec) (db : DB) (hash : Hash) : Except Err (Header × Hash) :=
  match OpenReader db .headerDB with
  | .error e => .error e
  | .ok r =>
    match Get db r hash.bytes with
    | .error e => .error e
    | .ok key =>
      match Get db r key with
      | .error e => .error e
      | .ok v =>
        match c.headerUnmarshal v with
        | .error e => .error e
        | .ok header => .ok (header, c.headerHash header)

/-- GetBody (accessors_chain.go:177). -/
def GetBody (c : Codec) (db : DB) (number : Nat) : Except Err Body :=
  match c.marshalText number with
  | .error e => .error e
  | .ok key =>
    match OpenReader db .bodyDB with
    | .error e => .error e
    | .ok r =>
      match Get db r key with
      | .error e => .error e
      | .ok v => c.bodyUnmarshal v

/-- StoreBody (accessors_chain.go:206).  A nil body is accepted and nothing is
written. -/
def StoreBody (c : Codec) (db : DB) (number : Nat) (body : Option Body) : DB × Option Err :=
  match c.marshalText number with
  | .error e => (db, some e)
  | .ok key =>
    match body with
    | none => (db, none)
    | some b =>
      match c.bodyMarshal b with
      | .error e => (db, some e)
      | .ok v =>
        match OpenWriter db .bodyDB with
        | .error e => (db, some e)
        | .ok w => Put db w key v

/-- StoreTransactionIndex (accessors_chain.go:295). -/
def StoreTransactionIndex (c : Codec) (db : DB) (blockNumber : Nat) (txHash : Hash) :
    DB × Option Err :=
  match c.marshalText blockNumber with
  | .error e => (db, some e)
  | .ok v =>
    match OpenWriter db .transactionIndex with
    | .error e => (db, some e)
    | .ok r => Put db r (c.hexBytes txHash) v

/-- GetTransactionIndex (accessors_chain.go:309). -/
def GetTransactionIndex (c : Codec) (db : DB) (txHash : Hash) : Except Err Nat :=
  match OpenReader db .transactionIndex with
  | .error e => .error e
  | .ok r =>
    match Get db r (c.hexBytes txHash) with
    | .error e => .error e
    | .ok v => c.fromHex v

/-- StoreHashNumber (accessors_chain.go:331). -/
def StoreHashNumber (c : Codec) (db : DB) (hash : Hash) (number : Nat) : DB × Option Err :=
  match c.marshalText number with
  | .error e => (db, some e)
  | .ok v =>
    match OpenWriter db .hashNumberDB with
    | .error e => (db, some e)
    | .ok r => Put db r (c.hexBytes hash) v

/-- GetHashNumber (accessors_chain.go:346). -/
def GetHashNumber (c : Codec) (db : DB) (hash : Hash) : Except Err Nat :=
  match OpenReader db .hashNumberDB with
  | .error e => .error e
  | .ok r =>
    match Get db r (c.hexBytes hash) with
    | .error e => .error e
    | .ok v => c.fromHex v

/-- The index loop of StoreBlock (accessors_chain.go:168): one
StoreTransactionIndex per transaction, stopping at the first error. -/
def storeTransactionIndexes (c : Codec) (db : DB) (number : Nat) :
    List Transaction → DB × Option Err
  | [] => (db, none)
  | tx :: rest =>
    match StoreTransactionIndex c db number (c.txHash tx) with
    | (db1, some e) => (db1, some e)
    | (db1, none) => storeTransactionIndexes c db1 number rest

/-- StoreBlock (accessors_chain.go:154). -/
def StoreBlock (c : Codec) (db : DB) (block : Block) : DB × Option Err :=
  match StoreHeader c db block.Header with
  | (db1, some e) => (db1, some e)
  | (db1, none) =>
    match StoreBody c db1 block.Number64 block.Body with
    | (db2, some e) => (db2, some e)
    | (db2, none) =>
      match StoreHashNumber c db2 (c.headerHash block.header) block.Number64 with
      | (db3, some e) => (db3, some e)
      | (db3, none) => storeTransactionIndexes c db3 block.Number64 block.Transactions

/-- The loop of SaveBlocks (accessors_chain.go:145), entered at index i. -/
def saveBlocksLoop (c : Codec) (db : DB) (i : Nat) : List Block → DB × Nat × Option Err
  | [] => (db, 0, none)
  | block :: rest =>
    match StoreBlock c db block with
    | (db1, some e) => (db1, i + 1, some e)
    | (db1, none) => saveBlocksLoop c db1 (i + 1) rest

/-- SaveBlocks (accessors_chain.go:142): the second component is the returned
count, the third the returned error. -/
def SaveBlocks (c : Codec) (db : DB) (blocks : List Block) : DB × Nat × Option Err :=
  saveBlocksLoop c db 0 blocks

/-- GetGenesis (accessors_chain.go:29). -/
def GetGenesis (c : Codec) (db : DB) : Except Err Block :=
  match GetHeader c db 0 with
  | .error e => .error e
  | .ok (header, _) =>
    match GetBody c db 0 with
    | .error e => .error e
    | .ok body => .ok (NewBlock header body.txs)

/-- StoreGenesis (accessors_chain.go:45). -/
def StoreGenesis (c : Codec) (db : DB) (genesisBlock : Block) : DB × Option Err :=
  StoreBlock c db genesisBlock

/-- The result tuple of GetTransaction: transaction (nil is none), header hash,
block number, position in the block and error (nil is none). -/
structure TxLookup where
  tx : Option Transaction
  headerHash : Hash
  blockNumber : Nat
  txIndex : Nat
  err : Option Err
deriving DecidableEq

/-- The scan loop of GetTransaction (accessors_chain.go:284): the first
transaction whose hash is txHash, with its position counted from i. -/
def scanTransactions (c : Codec) (txHash : Hash) : List Transaction → Nat → Option (Transaction × Nat)
  | [], _ => none
  | tx :: rest, i =>
    if c.txHash tx = txHash then some (tx, i) else scanTransactions c txHash rest (i + 1)

/-- GetTransaction (accessors_chain.go:270). -/
def GetTransaction (c : Codec) (db : DB) (txHash : Hash) : TxLookup :=
  match GetTransactionIndex c db txHash with
  | .error _ => ⟨none, Hash.zero, 0, 0, none⟩
  | .ok blockNumber =>
    match GetBody c db blockNumber with
    | .error _ => ⟨none, Hash.zero, 0, 0, none⟩
    | .ok body =>
      match GetHeader c db blockNumber with
      | .error _ => ⟨none, Hash.zero, 0, 0, none⟩
      | .ok (_, headerHash) =>
        match scanTransactions c txHash body.txs 0 with
        | some (tx, txIndex) => ⟨some tx, headerHash, blockNumber, txIndex, none⟩
        | none => ⟨none, Hash.zero, 0, 0, none⟩

/-- GetHeaderByHash as the spec words it: "resolve hash to number, then perform
the number-keyed lookup", that is GetHashNumber followed by GetHeader. -/
def GetHeaderByHash_spec (c : Codec) (db : DB) (hash : Hash) : Except Err (Header × Hash) :=
  match GetHashNumber c db hash with
  | .error e => .error e
  | .ok n => GetHeader c db n

/-- The header codec returns the header it encoded. -/
def Codec.RoundTripsHeader (c : Codec) (h : Header) : Prop :=
  ∀ v, c.headerMarshal h = .ok v → c.headerUnmarshal v = .ok h

/-- The body codec returns the body it encoded. -/
def Codec.RoundTripsBody (c : Codec) (b : Body) : Prop :=
  ∀ v, c.bodyMarshal b = .ok v → c.bodyUnmarshal v = .ok b

/-- The number written by MarshalText is read back unchanged by FromHex. -/
def Codec.RoundTripsNumber (c : Codec) (n : Nat) : Prop :=
  ∀ k, c.marshalText n = .ok k → c.fromHex k = .ok n

/-- The text key of the number n is not the raw byte string of the hash h: the
two kinds of key share the header table. -/
def Codec.KeyApart (c : Codec) (n : Nat) (h : Hash) : Prop :=
  ∀ k, c.marshalText n = .ok k → k ≠ h.bytes

/-- The content of the tables after the index loop of StoreBlock wrote an entry
with value key for every transaction of txs. -/
def indexTables (c : Codec) (key : Bytes) (txs : List Transaction)
    (T : TableName → Bytes → Option Bytes) : TableName → Bytes → Option Bytes :=
  txs.foldl (fun T tx => writeTable T .transactionIndex (c.hexBytes (c.txHash tx)) key) T

/-- The content of the tables after a StoreBlock whose five kinds of Put all
wrote: header, hash entry of the header table, body, hash to number entry, index
entries. -/
def tablesAfterStoreBlock (c : Codec) (T : TableName → Bytes → Option Bytes) (b : Block)
    (key hv bv : Bytes) : TableName → Bytes → Option Bytes :=
  indexTables c key b.body.txs
    (writeTable
      (writeTable
        (writeTable (writeTable T .headerDB key hv) .headerDB (c.headerHash b.header).bytes key)
        .bodyDB key bv)
      .hashNumberDB (c.hexBytes (c.headerHash b.header)) key)

/-- The index invariant against the blocks S stored so far: every entry of the
transaction index holds the text key of the number of a block of S whose body
record is in the body table under that key and contains a transaction whose
hash text is the key of the entry. -/
def IndexConsistent (c : Codec) (db : DB) (S : List Block) : Prop :=
  ∀ k v, db.tables .transactionIndex k = some v →
    ∃ b ∈ S, c.marshalText b.header.number = .ok v ∧
      (∃ bv, c.bodyMarshal b.body = .ok bv ∧ db.tables .bodyDB v = some bv) ∧
      ∃ t ∈ b.body.txs, c.hexBytes (c.txHash t) = k

/-- A call that writes headers: StoreHeader of an interface value or StoreBlock
of a block. -/
inductive StoreOp where
  | storeHeader (h : IHeader)
  | storeBlock (b : Block)

/-- The store after one call, whatever error it returned. -/
def StoreOp.run (c : Codec) (db : DB) : StoreOp → DB
  | .storeHeader h => (StoreHeader c db h).1
  | .storeBlock b => (StoreBlock c db b).1

/-- The store after a sequence of calls. -/
def runOps (c : Codec) (db : DB) (ops : List StoreOp) : DB :=
  ops.foldl (StoreOp.run c) db

/-- The headers handed to StoreHeader by one call. -/
def StoreOp.headers : StoreOp → List Header
  | .storeHeader (.header h) => [h]
  | .storeHeader .other => []
  | .storeBlock b => [b.header]

/-- The headers handed to StoreHeader by a sequence of calls. -/
def headersOf (ops : List StoreOp) : List Header :=
  ops.foldr (fun op acc => op.headers ++ acc) []

/-- The header-table invariant against the headers S stored so far: every entry
is either the record of a header of S under its number key, or the number key
of a header of S under its raw hash bytes. -/
def HeaderTableSound (c : Codec) (db : DB) (S : List Header) : Prop :=
  ∀ k v, db.tables .headerDB k = some v →
    (∃ hd ∈ S, c.marshalText hd.number = .ok k ∧ c.headerMarshal hd = .ok v) ∨
    (∃ hd ∈ S, k = (c.headerHash hd).bytes ∧ c.marshalText hd.number = .ok v)

/-! ## The number key encoding -/

/-- The ASCII code of the lower-case hexadecimal digit d. -/
def hexDigit (d : Nat) : Nat := if d < 10 then 48 + d else 87 + d

/-- The w low hexadecimal digits of n, most significant first. -/
def fixedHex : Nat → Nat → Bytes
  | 0, _ => []
  | w + 1, n => hexDigit (n / 16 ^ w % 16) :: fixedHex w n

/-- Modelled from the spec: the text key of a block number, the result of
types.Int256.MarshalText, which is declared outside the embedded file.  The
spec asks for "a fixed-width or order-preserving encoding, not a
variable-length decimal string"; this is the fixed-width text of 64
hexadecimal digits of a 256-bit number. -/
def Int256.MarshalText (n : Nat) : Bytes := fixedHex 64 n

/-! ## A concrete codec -/

/-- The value of one lower-case hexadecimal digit. -/
def hexValue (b : Nat) : Option Nat :=
  if 48 ≤ b ∧ b ≤ 57 then some (b - 48)
  else if 97 ≤ b ∧ b ≤ 102 then some (b - 87)
  else none

/-- The number written in hexadecimal digits after the digits already read as acc. -/
def parseHex : Bytes → Nat → Option Nat
  | [], acc => some acc
  | b :: rest, acc =>
    match hexValue b with
    | some d => parseHex rest (acc * 16 + d)
    | none => none

/-- A parser for the text keys of Int256.MarshalText. -/
def sampleFromHex (v : Bytes) : Except Err Nat :=
  match v with
  | [] => .error .corruptRecord
  | _ =>
    match parseHex v 0 with
    | some n => .ok n
    | none => .error .corruptRecord

/-- The sum of a byte string, the checksum behind the sample hashes. -/
def byteSum (bs : Bytes) : Nat := bs.foldr (· + ·) 0

/-- A hash value: tag repeated 31 times, then the checksum x modulo 256. -/
def sampleHash (tag x : Nat) : Hash := ⟨List.replicate 31 tag ++ [x % 256], by simp⟩

/-- The first 32 bytes of a byte string as a hash, when there are that many. -/
def takeHash (bs : Bytes) : Option Hash :=
  if h : (bs.take 32).length = 32 then some ⟨bs.take 32, h⟩ else none

/-- A header record: the number key, the two hashes, then the extra bytes. -/
def sampleHeaderMarshal (h : Header) : Except Err Bytes :=
  .ok (Int256.MarshalText h.number ++ h.parentHash.bytes ++ h.root.bytes ++ h.extra)

/-- The decoder of sampleHeaderMarshal. -/
def sampleHeaderUnmarshal (v : Bytes) : Except Err Header :=
  match parseHex (v.take 64) 0, takeHash (v.drop 64), takeHash (v.drop 96) with
  | some n, some p, some r =>
    if (v.take 64).length = 64 then .ok ⟨n, p, r, v.drop 128⟩ else .error .corruptRecord
  | _, _, _ => .error .corruptRecord

/-- A body record: every transaction as its payload length followed by its
payload. -/
def sampleBodyMarshal (b : Body) : Except Err Bytes :=
  .ok (b.txs.foldr (fun tx acc => tx.payload.length :: (tx.payload ++ acc)) [])

/-- The decoder of sampleBodyMarshal, reading at most fuel transactions. -/
def sampleBodyDecode : Nat → Bytes → Option (List Transaction)
  | _, [] => some []
  | 0, _ :: _ => none
  | fuel + 1, n :: rest =>
    if rest.length < n then none
    else
      match sampleBodyDecode fuel (rest.drop n) with
      | some txs => some (⟨rest.take n⟩ :: txs)
      | none => none

/-- The decoder of sampleBodyMarshal. -/
def sampleBodyUnmarshal (v : Bytes) : Except Err Body :=
  match sampleBodyDecode v.length v with
  | some txs => .ok ⟨txs⟩
  | none => .error .corruptRecord

/-- The text of a byte string: two hexadecimal digits per byte. -/
def hexText (bs : Bytes) : Bytes :=
  bs.foldr (fun b acc => hexDigit (b / 16) :: hexDigit (b % 16) :: acc) []

/-- The text of a hash: two hexadecimal digits per byte. -/
def sampleHexBytes (h : Hash) : Bytes := hexText h.bytes

/-- A concrete codec: fixed-width number keys, length-prefixed records and
checksum hashes. -/
def sampleCodec : Codec where
  marshalText := fun n => if n < 2 ^ 256 then .ok (Int256.MarshalText n) else .error .encodeFailed
  fromHex := sampleFromHex
  headerMarshal := sampleHeaderMarshal
  headerUnmarshal := sampleHeaderUnmarshal
  headerHash := fun h =>
    sampleHash 0 (h.number + byteSum h.parentHash.bytes + byteSum h.root.bytes + byteSum h.extra)
  bodyMarshal := sampleBodyMarshal
  bodyUnmarshal := sampleBodyUnmarshal
  txHash := fun tx => sampleHash 1 (byteSum tx.payload)
  hexBytes := sampleHexBytes

/-- A transaction with payload [1, 2, 3]. -/
def txA : Transaction := ⟨[1, 2, 3]⟩

/-- A transaction with payload [7]. -/
def txB : Transaction := ⟨[7]⟩

/-- A header with the given number and extra bytes, with zero parent and root. -/
def sampleHeader (number : Nat) (extra : Bytes) : Header := ⟨number, Hash.zero, Hash.zero, extra⟩

/-- The genesis block: number 0, transactions txA and txB. -/
def block0 : Block := ⟨sampleHeader 0 [], ⟨[txA, txB]⟩⟩

/-- A block at number 1 holding txA. -/
def block1 : Block := ⟨sampleHeader 1 [], ⟨[txA]⟩⟩

/-- A second block at number 1, with another header, holding txB. -/
def block1b : Block := ⟨sampleHeader 1 [5], ⟨[txB]⟩⟩

/-- A block at number 2 holding txB. -/
def block2 : Block := ⟨sampleHeader 2 [], ⟨[txB]⟩⟩

/-- A transaction with payload [6], whose sample hash is the hash of txA. -/
def txC : Transaction := ⟨[6]⟩

/-- A block at number 0 holding txA and then txC, two transactions with one hash. -/
def blockDup : Block := ⟨sampleHeader 0 [], ⟨[txA, txC]⟩⟩

/-! ## A codec whose number keys have the width of a hash -/

/-- A number key of 32 bytes: 31 zero bytes, then the number. -/
def tinyKey (n : Nat) : Bytes := List.replicate 31 0 ++ [n]

/-- A header record that leaves default fields out: the number key alone when
parent, root and extra are zero, else the number key, the two hashes and the
extra bytes. -/
def tinyHeaderMarshal (h : Header) : Except Err Bytes :=
  if h.parentHash = Hash.zero ∧ h.root = Hash.zero ∧ h.extra = [] then .ok (tinyKey h.number)
  else .ok (tinyKey h.number ++ h.parentHash.bytes ++ h.root.bytes ++ h.extra)

/-- The decoder of tinyHeaderMarshal. -/
def tinyHeaderUnmarshal (v : Bytes) : Except Err Header :=
  match v.drop 31 with
  | [] => .error .corruptRecord
  | [n] => .ok ⟨n, Hash.zero, Hash.zero, []⟩
  | n :: rest =>
    match takeHash rest, takeHash (rest.drop 32) with
    | some p, some r => .ok ⟨n, p, r, rest.drop 64⟩
    | _, _ => .error .corruptRecord

/-- The parser of tinyKey. -/
def tinyFromHex (v : Bytes) : Except Err Nat :=
  match v.drop 31 with
  | [n] => .ok n
  | _ => .error .corruptRecord

/-- A codec with 32-byte number keys for the numbers below 256, records that
leave default fields out, and a checksum hash of number and extra bytes. -/
def tinyCodec : Codec where
  marshalText := fun n => if n < 256 then .ok (tinyKey n) else .error .encodeFailed
  fromHex := tinyFromHex
  headerMarshal := tinyHeaderMarshal
  headerUnmarshal := tinyHeaderUnmarshal
  headerHash := fun h => sampleHash 0 (h.number + byteSum h.extra + 1)
  bodyMarshal := sampleBodyMarshal
  bodyUnmarshal := sampleBodyUnmarshal
  txHash := fun tx => sampleHash 1 (byteSum tx.payload)
  hexBytes := sampleHexBytes

/-- A block at number 3 holding txA whose header hash under tinyCodec has the
raw bytes of the key of number 3. -/
def blockClash : Block := ⟨sampleHeader 3 [255], ⟨[txA]⟩⟩

/-! ## Concrete stores -/

/-- The empty store after StoreHeader of the header of block0 alone. -/
def dbHeaderOnly : DB := (StoreHeader sampleCodec DB.empty block0.Header).1

/-- An empty store on which every Put into the header table fails. -/
def dbHeaderPutDown : DB := { DB.empty with putFails := fun t _ => decide (t = .headerDB) }

/-- A store in which the hash of txA is indexed at number 0 and the body table
holds the undecodable record [9] at number 0. -/
def dbCorruptBody : DB :=
  (Put (StoreTransactionIndex sampleCodec DB.empty 0 (sampleCodec.txHash txA)).1
    .bodyDB (Int256.MarshalText 0) [9]).1

/-! ## Results -/

theorem hexDigit_lt {d e : Nat} (h : d < e) (he : e < 16) : hexDigit d < hexDigit e := by
  unfold hexDigit
  split <;> split <;> omega

theorem fixedHex_length (w n : Nat) : (fixedHex w n).length = w := by
  induction w with
  | zero => rfl
  | succ w ih => simp [fixedHex, ih]

theorem fixedHex_lt (w : Nat) : ∀ a b : Nat, a % 16 ^ w < b % 16 ^ w →
    List.Lex (· < ·) (fixedHex w a) (fixedHex w b) := by
  induction w with
  | zero => intro a b h; simp [Nat.mod_one] at h
  | succ w ih =>
    intro a b h
    have hp : 0 < 16 ^ w := Nat.pow_pos (by norm_num)
    have da : a % 16 ^ (w + 1) = 16 ^ w * (a / 16 ^ w % 16) + a % 16 ^ w := by
      rw [pow_succ, Nat.mod_mul]; omega
    have db : b % 16 ^ (w + 1) = 16 ^ w * (b / 16 ^ w % 16) + b % 16 ^ w := by
      rw [pow_succ, Nat.mod_mul]; omega
    have ha : a % 16 ^ w < 16 ^ w := Nat.mod_lt _ hp
    have hb : b % 16 ^ w < 16 ^ w := Nat.mod_lt _ hp
    have hb16 : b / 16 ^ w % 16 < 16 := Nat.mod_lt _ (by norm_num)
    rw [da, db] at h
    simp only [fixedHex]
    rcases Nat.lt_trichotomy (a / 16 ^ w % 16) (b / 16 ^ w % 16) with hlt | heq | hgt
    · exact List.Lex.rel (hexDigit_lt hlt hb16)
    · rw [heq] at h
      have h2 : a % 16 ^ w < b % 16 ^ w := by omega
      rw [heq]
      exact List.Lex.cons (ih a b h2)
    · exfalso
      have h3 : 16 ^ w * (b / 16 ^ w % 16 + 1) ≤ 16 ^ w * (a / 16 ^ w % 16) :=
        Nat.mul_le_mul_left _ hgt
      rw [Nat.mul_add, Nat.mul_one] at h3
      omega

/-- Claim C5 (against the key encoding modelled from the spec): for block
numbers a < b below 2^256, the text key of a sorts lexicographically strictly
before the text key of b. -/
theorem number_key_order (a b : Nat) (hab : a < b) (hb : b < 2 ^ 256) :
    List.Lex (· < ·) (Int256.MarshalText a) (Int256.MarshalText b) := by
  have h16 : (16 : Nat) ^ 64 = 2 ^ 256 := by norm_num
  apply fixedHex_lt
  rw [h16, Nat.mod_eq_of_lt (by omega), Nat.mod_eq_of_lt hb]
  exact hab

/-- The key of 9 sorts before the key of 10. -/
theorem number_key_order_witness :
    List.Lex (· < ·) (Int256.MarshalText 9) (Int256.MarshalText 10) :=
  number_key_order 9 10 (by decide) (by norm_num)

theorem Hash.eq_of_bytes (h1 h2 : Hash) (h : h1.bytes = h2.bytes) : h1 = h2 := by
  cases h1
  cases h2
  simp only at h
  subst h
  rfl

/-! ## Stores on which no call fails -/

theorem writeTable_apply (T : TableName → Bytes → Option Bytes) (t : TableName) (k v : Bytes)
    (t1 : TableName) (k1 : Bytes) :
    writeTable T t k v t1 k1 = if t1 = t ∧ k1 = k then some v else T t1 k1 := rfl

theorem Healthy_withTables {db : DB} (h : db.Healthy) (T : TableName → Bytes → Option Bytes) :
    DB.Healthy { db with tables := T } := h

theorem OpenReader_healthy {db : DB} (h : db.Healthy) (t : TableName) :
    OpenReader db t = .ok t := by
  simp [OpenReader, h.1 t]

theorem OpenWriter_healthy {db : DB} (h : db.Healthy) (t : TableName) :
    OpenWriter db t = .ok t := by
  simp [OpenWriter, h.2.1 t]

theorem Get_healthy {db : DB} (h : db.Healthy) (t : TableName) (k v : Bytes)
    (hv : db.tables t k = some v) : Get db t k = .ok v := by
  simp [Get, h.2.2.1 t k, hv]

theorem Put_healthy {db : DB} (h : db.Healthy) (t : TableName) (k v : Bytes) :
    Put db t k v = ({ db with tables := writeTable db.tables t k v }, none) := by
  simp [Put, h.2.2.2 t k]

theorem indexTables_apply (c : Codec) (key : Bytes) (txs : List Transaction) :
    ∀ (T : TableName → Bytes → Option Bytes) (t : TableName) (k : Bytes),
    indexTables c key txs T t k
      = if t = .transactionIndex ∧ k ∈ txs.map (fun tx => c.hexBytes (c.txHash tx))
        then some key else T t k := by
  unfold indexTables
  induction txs with
  | nil => intro T t k; simp
  | cons tx rest ih =>
    intro T t k
    rw [List.foldl_cons, ih, writeTable_apply]
    by_cases h1 : t = .transactionIndex
    · by_cases h2 : k = c.hexBytes (c.txHash tx)
      · simp [h1, h2]
      · by_cases h3 : k ∈ rest.map (fun tx => c.hexBytes (c.txHash tx))
        · simp [h1, h3]
        · simp [h1, h2, h3]
    · simp [h1]

theorem storeTransactionIndexes_healthy (c : Codec) (number : Nat) (key : Bytes)
    (hk : c.marshalText number = .ok key) (txs : List Transaction) :
    ∀ db : DB, db.Healthy → storeTransactionIndexes c db number txs =
      ({ db with tables := indexTables c key txs db.tables }, none) := by
  induction txs with
  | nil => intro db _; rfl
  | cons tx rest ih =>
    intro db h
    simp only [storeTransactionIndexes, StoreTransactionIndex, hk, OpenWriter_healthy h,
      Put_healthy h]
    rw [ih _ (Healthy_withTables h _)]
    rfl

theorem StoreBlock_healthy (c : Codec) (db : DB) (h : db.Healthy) (b : Block) (key hv bv : Bytes)
    (hk : c.marshalText b.header.number = .ok key) (hh : c.headerMarshal b.header = .ok hv)
    (hb : c.bodyMarshal b.body = .ok bv) :
    StoreBlock c db b = ({ db with tables := tablesAfterStoreBlock c db.tables b key hv bv }, none) := by
  simp only [StoreBlock, StoreHeader, Block.Header, Block.Number64, Block.Body, Block.Transactions,
    StoreBody, StoreHashNumber, hk, hh, hb, OpenWriter_healthy h, Put_healthy h,
    OpenWriter_healthy (Healthy_withTables h _), Put_healthy (Healthy_withTables h _)]
  rw [storeTransactionIndexes_healthy c _ key hk _ _ (Healthy_withTables h _)]
  rfl

/-- A StoreBlock that returns no error encoded the number, the header and the body. -/
theorem StoreBlock_ok_encodes (c : Codec) (db : DB) (b : Block)
    (hok : (StoreBlock c db b).2 = none) :
    ∃ key hv bv, c.marshalText b.header.number = .ok key ∧ c.headerMarshal b.header = .ok hv ∧
      c.bodyMarshal b.body = .ok bv := by
  cases hk : c.marshalText b.header.number with
  | error e => simp [StoreBlock, StoreHeader, Block.Header, hk] at hok
  | ok key =>
    cases hh : c.headerMarshal b.header with
    | error e => simp [StoreBlock, StoreHeader, Block.Header, hk, hh] at hok
    | ok hv =>
      cases hb : c.bodyMarshal b.body with
      | error e =>
        cases hw : OpenWriter db .headerDB with
        | error e2 => simp [StoreBlock, StoreHeader, Block.Header, hk, hh, hw] at hok
        | ok w =>
          simp [StoreBlock, StoreHeader, Block.Header, Block.Number64, Block.Body, StoreBody,
            hk, hh, hb, hw] at hok
      | ok bv => exact ⟨key, hv, bv, rfl, rfl, rfl⟩

theorem tablesAfter_header (c : Codec) (T : TableName → Bytes → Option Bytes) (b : Block)
    (key hv bv : Bytes) (hne : key ≠ (c.headerHash b.header).bytes) :
    tablesAfterStoreBlock c T b key hv bv .headerDB key = some hv := by
  simp [tablesAfterStoreBlock, indexTables_apply, writeTable_apply, hne]

theorem tablesAfter_hash (c : Codec) (T : TableName → Bytes → Option Bytes) (b : Block)
    (key hv bv : Bytes) :
    tablesAfterStoreBlock c T b key hv bv .headerDB (c.headerHash b.header).bytes = some key := by
  simp [tablesAfterStoreBlock, indexTables_apply, writeTable_apply]

theorem tablesAfter_body (c : Codec) (T : TableName → Bytes → Option Bytes) (b : Block)
    (key hv bv : Bytes) :
    tablesAfterStoreBlock c T b key hv bv .bodyDB key = some bv := by
  simp [tablesAfterStoreBlock, indexTables_apply, writeTable_apply]

theorem tablesAfter_index (c : Codec) (T : TableName → Bytes → Option Bytes) (b : Block)
    (key hv bv : Bytes) (t : Transaction) (ht : t ∈ b.body.txs) :
    tablesAfterStoreBlock c T b key hv bv .transactionIndex (c.hexBytes (c.txHash t))
      = some key := by
  rw [tablesAfterStoreBlock, indexTables_apply, if_pos]
  exact ⟨rfl, List.mem_map.mpr ⟨t, ht, rfl⟩⟩

/-- What the three readers return on a store on which no call fails, after a
StoreBlock that returned no error. -/
theorem reads_after_StoreBlock (c : Codec) (db : DB) (b : Block) (hdb : db.Healthy)
    (hH : c.RoundTripsHeader b.header) (hB : c.RoundTripsBody b.body)
    (hsep : c.KeyApart b.header.number (c.headerHash b.header))
    (hok : (StoreBlock c db b).2 = none) :
    GetHeaderByHash c (StoreBlock c db b).1 (c.headerHash b.header)
      = .ok (b.header, c.headerHash b.header) ∧
    GetHeader c (StoreBlock c db b).1 b.header.number = .ok (b.header, c.headerHash b.header) ∧
    GetBody c (StoreBlock c db b).1 b.header.number = .ok b.body := by
  obtain ⟨key, hv, bv, hk, hh, hb⟩ := StoreBlock_ok_encodes c db b hok
  rw [StoreBlock_healthy c db hdb b key hv bv hk hh hb]
  have hdb1 : DB.Healthy { db with tables := tablesAfterStoreBlock c db.tables b key hv bv } :=
    Healthy_withTables hdb _
  have hne : key ≠ (c.headerHash b.header).bytes := hsep key hk
  refine ⟨?_, ?_, ?_⟩
  · simp only [GetHeaderByHash, OpenReader_healthy hdb1,
      Get_healthy hdb1 _ _ _ (tablesAfter_hash c db.tables b key hv bv),
      Get_healthy hdb1 _ _ _ (tablesAfter_header c db.tables b key hv bv hne), hH hv hh]
  · simp only [GetHeader, hk, OpenReader_healthy hdb1,
      Get_healthy hdb1 _ _ _ (tablesAfter_header c db.tables b key hv bv hne), hH hv hh]
  · simp only [GetBody, hk, OpenReader_healthy hdb1,
      Get_healthy hdb1 _ _ _ (tablesAfter_body c db.tables b key hv bv), hB bv hb]

/-- Claim C1 fails as stated.  First part: on a store whose header table refuses
every Put, StoreBlock of block0 returns no error and neither GetHeaderByHash nor
GetHeader finds the header.  Second part: with a codec that round-trips the
header and the body of blockClash and gives its number the raw bytes of its
header hash as text key, on the empty store with no failing call, StoreBlock
returns no error and both readers return another header. -/
theorem store_block_then_read_counterexample :
    ((StoreBlock sampleCodec dbHeaderPutDown block0).2 = none ∧
      GetHeaderByHash sampleCodec (StoreBlock sampleCodec dbHeaderPutDown block0).1
        (sampleCodec.headerHash block0.header) = .error .notFound ∧
      GetHeader sampleCodec (StoreBlock sampleCodec dbHeaderPutDown block0).1 block0.Number64
        = .error .notFound) ∧
    (tinyCodec.RoundTripsHeader blockClash.header ∧ tinyCodec.RoundTripsBody blockClash.body ∧
      tinyCodec.marshalText blockClash.Number64
        = .ok (tinyCodec.headerHash blockClash.header).bytes ∧
      (StoreBlock tinyCodec DB.empty blockClash).2 = none ∧
      GetHeaderByHash tinyCodec (StoreBlock tinyCodec DB.empty blockClash).1
        (tinyCodec.headerHash blockClash.header)
          = .ok (sampleHeader 3 [], tinyCodec.headerHash (sampleHeader 3 [])) ∧
      GetHeader tinyCodec (StoreBlock tinyCodec DB.empty blockClash).1 blockClash.Number64
        = .ok (sampleHeader 3 [], tinyCodec.headerHash (sampleHeader 3 [])) ∧
      sampleHeader 3 [] ≠ blockClash.header) :=
  ⟨⟨rfl, rfl, rfl⟩,
    ⟨fun v hv => by cases hv; rfl, fun v hv => by cases hv; rfl, rfl, rfl, rfl, rfl, by decide⟩⟩

/-- Claim C1, amended: on a store on which no call fails, with a codec that
round-trips the header and the body of B and a text key of the number of B that
is not the raw bytes of the hash of B, a StoreBlock of B that returns no error
is followed by GetHeaderByHash at the hash of B and GetHeader at the number of
B returning the header of B with its hash, and by GetBody at the number of B
returning the body of B. -/
theorem store_block_then_read (c : Codec) (db : DB) (b : Block) (hdb : db.Healthy)
    (hH : c.RoundTripsHeader b.header) (hB : c.RoundTripsBody b.body)
    (hsep : c.KeyApart b.header.number (c.headerHash b.header))
    (hok : (StoreBlock c db b).2 = none) :
    GetHeaderByHash c (StoreBlock c db b).1 (c.headerHash b.header)
      = .ok (b.header, c.headerHash b.header) ∧
    GetHeader c (StoreBlock c db b).1 b.Number64 = .ok (b.header, c.headerHash b.header) ∧
    GetBody c (StoreBlock c db b).1 b.Number64 = .ok b.body :=
  reads_after_StoreBlock c db b hdb hH hB hsep hok

theorem scanTransactions_finds (c : Codec) (h : Hash) (txs : List Transaction) :
    ∀ j : Nat, (∃ t ∈ txs, c.txHash t = h) →
      ∃ tx i, scanTransactions c h txs j = some (tx, j + i) ∧ txs[i]? = some tx ∧
        c.txHash tx = h ∧ ∀ k, k < i → ∀ tk, txs[k]? = some tk → c.txHash tk ≠ h := by
  induction txs with
  | nil => intro j ⟨t, ht, _⟩; simp at ht
  | cons x rest ih =>
    intro j ⟨t, ht, hth⟩
    by_cases hx : c.txHash x = h
    · exact ⟨x, 0, by simp [scanTransactions, hx], by simp, hx, fun k hk => absurd hk (by omega)⟩
    · have ht2 : t ∈ rest := by
        rcases List.mem_cons.mp ht with heq | hmem
        · exact absurd (heq ▸ hth) hx
        · exact hmem
      obtain ⟨tx, i, h1, h2, h3, h4⟩ := ih (j + 1) ⟨t, ht2, hth⟩
      refine ⟨tx, i + 1, ?_, by simpa using h2, h3, ?_⟩
      · simp only [scanTransactions, hx, if_false]
        rw [h1]
        congr 2
        omega
      · intro k hk tk htk
        cases k with
        | zero =>
          simp only [List.getElem?_cons_zero, Option.some.injEq] at htk
          rw [← htk]
          exact hx
        | succ k1 =>
          simp only [List.getElem?_cons_succ] at htk
          exact h4 k1 (by omega) tk htk

/-- Claim C2 fails as stated.  First part: on a store whose header table refuses
every Put, StoreBlock of block0 returns no error and GetTransaction at the hash
of its transaction txB returns no transaction.  Second part: in blockDup the
transactions txA and txC have one hash, and GetTransaction at the hash of txC
returns txA at position 0.  Third part: with a codec that gives the number of
blockClash the raw bytes of its header hash as text key, GetTransaction returns
a header hash that is not the hash of the header of blockClash. -/
theorem store_block_then_get_transaction_counterexample :
    ((StoreBlock sampleCodec dbHeaderPutDown block0).2 = none ∧ txB ∈ block0.Transactions ∧
      GetTransaction sampleCodec (StoreBlock sampleCodec dbHeaderPutDown block0).1
        (sampleCodec.txHash txB) = ⟨none, Hash.zero, 0, 0, none⟩) ∧
    ((StoreBlock sampleCodec DB.empty blockDup).2 = none ∧ txC ∈ blockDup.Transactions ∧
      GetTransaction sampleCodec (StoreBlock sampleCodec DB.empty blockDup).1
        (sampleCodec.txHash txC)
          = ⟨some txA, sampleCodec.headerHash blockDup.header, 0, 0, none⟩ ∧
      txA ≠ txC) ∧
    ((StoreBlock tinyCodec DB.empty blockClash).2 = none ∧ txA ∈ blockClash.Transactions ∧
      tinyCodec.RoundTripsNumber blockClash.Number64 ∧
      GetTransaction tinyCodec (StoreBlock tinyCodec DB.empty blockClash).1
        (tinyCodec.txHash txA)
          = ⟨some txA, tinyCodec.headerHash (sampleHeader 3 []), 3, 0, none⟩ ∧
      tinyCodec.headerHash (sampleHeader 3 []) ≠ tinyCodec.headerHash blockClash.header) :=
  ⟨⟨rfl, by decide, rfl⟩, ⟨rfl, by decide, rfl, by decide⟩,
    ⟨rfl, by decide, fun v hv => by cases hv; rfl, rfl, by decide⟩⟩

/-- Claim C2, amended: on a store on which no call fails, with a codec that
round-trips the header, the body and the number of B and a text key of the
number of B that is not the raw bytes of the hash of B, after a StoreBlock of B
that returned no error, GetTransaction at the hash of a transaction t of B
returns, with a nil error, the first transaction of B whose hash is the hash of
t, the header hash of B, the number of B and the position i of that
transaction in the body of B; the transaction returned is t when no other
transaction of B has the hash of t. -/
theorem store_block_then_get_transaction (c : Codec) (db : DB) (b : Block) (t : Transaction)
    (hdb : db.Healthy) (hH : c.RoundTripsHeader b.header) (hB : c.RoundTripsBody b.body)
    (hN : c.RoundTripsNumber b.header.number)
    (hsep : c.KeyApart b.header.number (c.headerHash b.header))
    (ht : t ∈ b.Transactions)
    (hok : (StoreBlock c db b).2 = none) :
    ∃ tx i, GetTransaction c (StoreBlock c db b).1 (c.txHash t)
        = ⟨some tx, c.headerHash b.header, b.Number64, i, none⟩ ∧
      b.body.txs[i]? = some tx ∧ c.txHash tx = c.txHash t ∧
      (∀ k, k < i → ∀ tk, b.body.txs[k]? = some tk → c.txHash tk ≠ c.txHash t) ∧
      ((∀ t1 ∈ b.Transactions, c.txHash t1 = c.txHash t → t1 = t) → tx = t) := by
  obtain ⟨_, hGH, hGB⟩ := reads_after_StoreBlock c db b hdb hH hB hsep hok
  obtain ⟨key, hv, bv, hk, hh, hb⟩ := StoreBlock_ok_encodes c db b hok
  have hidx : GetTransactionIndex c (StoreBlock c db b).1 (c.txHash t) = .ok b.header.number := by
    rw [StoreBlock_healthy c db hdb b key hv bv hk hh hb]
    have hdb1 : DB.Healthy { db with tables := tablesAfterStoreBlock c db.tables b key hv bv } :=
      Healthy_withTables hdb _
    simp only [GetTransactionIndex, OpenReader_healthy hdb1,
      Get_healthy hdb1 _ _ _ (tablesAfter_index c db.tables b key hv bv t ht), hN key hk]
  obtain ⟨tx, i, hs1, hs2, hs3, hs4⟩ :=
    scanTransactions_finds c (c.txHash t) b.body.txs 0 ⟨t, ht, rfl⟩
  refine ⟨tx, i, ?_, hs2, hs3, hs4, fun huniq => huniq tx (List.getElem?_mem hs2) hs3⟩
  simp only [GetTransaction, hidx, hGB, hGH, hs1, Block.Number64, Nat.zero_add]

/-- Claim C3, amended: on a store on which no call fails, with a codec that
round-trips the header and the body of G and a number key distinct from the raw
hash bytes, for a block G whose number is 0, a StoreGenesis of G that returns
no error is followed by GetGenesis returning a block equal to G, whose number
is 0. -/
theorem store_genesis_then_get (c : Codec) (db : DB) (g : Block) (hdb : db.Healthy)
    (hH : c.RoundTripsHeader g.header) (hB : c.RoundTripsBody g.body)
    (hsep : c.KeyApart g.header.number (c.headerHash g.header))
    (hzero : g.Number64 = 0)
    (hok : (StoreGenesis c db g).2 = none) :
    ∃ blk, GetGenesis c (StoreGenesis c db g).1 = .ok blk ∧ blk = g ∧ blk.Number64 = 0 := by
  obtain ⟨_, hGH, hGB⟩ := reads_after_StoreBlock c db g hdb hH hB hsep hok
  have hz : g.header.number = 0 := hzero
  rw [hz] at hGH hGB
  refine ⟨g, ?_, rfl, hzero⟩
  simp only [GetGenesis, StoreGenesis, hGH, hGB, NewBlock]

/-- Claim C3 fails as stated: StoreGenesis of a block with number 1 into the
empty store returns no error, and GetGenesis then finds nothing at number 0. -/
theorem store_genesis_nonzero_counterexample :
    (StoreGenesis sampleCodec DB.empty block1).2 = none ∧
    GetGenesis sampleCodec (StoreGenesis sampleCodec DB.empty block1).1 = .error .notFound :=
  ⟨rfl, rfl⟩

/-- The three readers after StoreBlock of block0 into the empty store. -/
theorem store_block_then_read_witness :
    GetHeaderByHash sampleCodec (StoreBlock sampleCodec DB.empty block0).1
        (sampleCodec.headerHash block0.header)
      = .ok (block0.header, sampleCodec.headerHash block0.header) ∧
    GetHeader sampleCodec (StoreBlock sampleCodec DB.empty block0).1 block0.Number64
      = .ok (block0.header, sampleCodec.headerHash block0.header) ∧
    GetBody sampleCodec (StoreBlock sampleCodec DB.empty block0).1 block0.Number64
      = .ok block0.body :=
  store_block_then_read sampleCodec DB.empty block0
    ⟨fun _ => rfl, fun _ => rfl, fun _ _ => rfl, fun _ _ => rfl⟩
    (fun v hv => by cases hv; rfl) (fun v hv => by cases hv; rfl)
    (fun k hk => by cases hk; decide) rfl

/-! ## GetHeaderByHash and the hash to number index -/

/-- Claim C4 fails as stated: after StoreHeader alone the header table resolves
the hash, so GetHeaderByHash returns the header, while GetHashNumber misses and
the composition through it fails. -/
theorem GetHeaderByHash_not_via_hash_number :
    GetHeaderByHash sampleCodec dbHeaderOnly (sampleCodec.headerHash block0.header)
      = .ok (block0.header, sampleCodec.headerHash block0.header) ∧
    GetHashNumber sampleCodec dbHeaderOnly (sampleCodec.headerHash block0.header)
      = .error .notFound ∧
    GetHeaderByHash_spec sampleCodec dbHeaderOnly (sampleCodec.headerHash block0.header)
      = .error .notFound :=
  ⟨rfl, rfl, rfl⟩

/-- Claim C4, amended: GetHeaderByHash resolves the hash through the entry of
the header table under the raw hash bytes.  When that entry is the text key of
a number n it returns what GetHeader returns at n, and it fails when the header
table misses the raw hash bytes or misses the key found there. -/
theorem GetHeaderByHash_via_header_table (c : Codec) (db : DB) (h : Hash) :
    (∀ key n, Get db .headerDB h.bytes = .ok key → c.marshalText n = .ok key →
      GetHeaderByHash c db h = GetHeader c db n) ∧
    (∀ e, Get db .headerDB h.bytes = .error e → ∃ e1, GetHeaderByHash c db h = .error e1) ∧
    (∀ key e, Get db .headerDB h.bytes = .ok key → Get db .headerDB key = .error e →
      ∃ e1, GetHeaderByHash c db h = .error e1) := by
  refine ⟨?_, ?_, ?_⟩
  · intro key n hget hn
    cases hr : OpenReader db .headerDB with
    | error e => simp [GetHeaderByHash, GetHeader, hr, hn]
    | ok r =>
      have hr2 : r = .headerDB := by
        unfold OpenReader at hr
        split at hr <;> simp at hr
        exact hr.symm
      subst hr2
      simp [GetHeaderByHash, GetHeader, hr, hn, hget]
  · intro e hget
    cases hr : OpenReader db .headerDB with
    | error e2 => exact ⟨e2, by simp [GetHeaderByHash, hr]⟩
    | ok r =>
      have hr2 : r = .headerDB := by
        unfold OpenReader at hr
        split at hr <;> simp at hr
        exact hr.symm
      subst hr2
      exact ⟨e, by simp [GetHeaderByHash, hr, hget]⟩
  · intro key e hget hkey
    cases hr : OpenReader db .headerDB with
    | error e2 => exact ⟨e2, by simp [GetHeaderByHash, hr]⟩
    | ok r =>
      have hr2 : r = .headerDB := by
        unfold OpenReader at hr
        split at hr <;> simp at hr
        exact hr.symm
      subst hr2
      exact ⟨e, by simp [GetHeaderByHash, hr, hget, hkey]⟩

/-- After StoreHeader of the header of block0, the lookup by hash is the lookup at number 0. -/
theorem GetHeaderByHash_via_header_table_witness :
    GetHeaderByHash sampleCodec dbHeaderOnly (sampleCodec.headerHash block0.header)
      = GetHeader sampleCodec dbHeaderOnly 0 :=
  (GetHeaderByHash_via_header_table sampleCodec dbHeaderOnly
    (sampleCodec.headerHash block0.header)).1 (Int256.MarshalText 0) 0 rfl rfl

/-! ## Failures of StoreBlock and GetTransaction -/

/-- Claim C7 on the code: on a store whose header table refuses every Put, both
Puts of StoreHeader fail, StoreBlock still returns no error, and the header is
not in the store. -/
theorem StoreBlock_masks_header_put_failure :
    (∀ k v, (Put dbHeaderPutDown .headerDB k v).2 = some .storageUnavailable) ∧
    (StoreBlock sampleCodec dbHeaderPutDown block0).2 = none ∧
    GetHeader sampleCodec (StoreBlock sampleCodec dbHeaderPutDown block0).1 0
      = .error .notFound :=
  ⟨fun _ _ => rfl, rfl, rfl⟩

/-- The error result of GetTransaction is nil on every store and every hash. -/
theorem GetTransaction_error_nil (c : Codec) (db : DB) (h : Hash) :
    (GetTransaction c db h).err = none := by
  unfold GetTransaction
  split <;> first | rfl | skip
  split <;> first | rfl | skip
  split <;> first | rfl | skip
  split <;> rfl

/-- Claim C8 on the code: with the hash of txA indexed at number 0 and an
undecodable body record there, GetBody fails with a corrupt record, and
GetTransaction returns a nil error and the very result it returns on the empty
store, where the hash is not indexed at all. -/
theorem GetTransaction_masks_failures :
    GetTransactionIndex sampleCodec dbCorruptBody (sampleCodec.txHash txA) = .ok 0 ∧
    GetBody sampleCodec dbCorruptBody 0 = .error .corruptRecord ∧
    GetTransaction sampleCodec dbCorruptBody (sampleCodec.txHash txA)
      = ⟨none, Hash.zero, 0, 0, none⟩ ∧
    GetTransaction sampleCodec DB.empty (sampleCodec.txHash txA)
      = GetTransaction sampleCodec dbCorruptBody (sampleCodec.txHash txA) :=
  ⟨rfl, rfl, rfl, rfl⟩

/-! ## The transaction index across several blocks -/

theorem tablesAfter_body_apply (c : Codec) (T : TableName → Bytes → Option Bytes) (b : Block)
    (key hv bv k : Bytes) :
    tablesAfterStoreBlock c T b key hv bv .bodyDB k
      = if k = key then some bv else T .bodyDB k := by
  simp [tablesAfterStoreBlock, indexTables_apply, writeTable_apply]

theorem tablesAfter_index_apply (c : Codec) (T : TableName → Bytes → Option Bytes) (b : Block)
    (key hv bv k : Bytes) :
    tablesAfterStoreBlock c T b key hv bv .transactionIndex k
      = if k ∈ b.body.txs.map (fun tx => c.hexBytes (c.txHash tx)) then some key
        else T .transactionIndex k := by
  simp [tablesAfterStoreBlock, indexTables_apply, writeTable_apply]

theorem IndexConsistent_mono (c : Codec) (db : DB) (S S1 : List Block)
    (hsub : ∀ b, b ∈ S → b ∈ S1) (h : IndexConsistent c db S) : IndexConsistent c db S1 := by
  intro k v hkv
  obtain ⟨b, hb, rest⟩ := h k v hkv
  exact ⟨b, hsub b hb, rest⟩

/-- One StoreBlock at a number not stored before keeps the index invariant. -/
theorem IndexConsistent_StoreBlock (c : Codec) (db : DB) (S : List Block) (b : Block)
    (hdb : db.Healthy) (hinv : IndexConsistent c db S)
    (hS : ∀ s ∈ S, c.RoundTripsNumber s.header.number)
    (hb : c.RoundTripsNumber b.header.number)
    (hnew : ∀ s ∈ S, s.header.number ≠ b.header.number)
    (hok : (StoreBlock c db b).2 = none) :
    (StoreBlock c db b).1.Healthy ∧ IndexConsistent c (StoreBlock c db b).1 (b :: S) := by
  obtain ⟨key, hv, bv, hk, hh, hbm⟩ := StoreBlock_ok_encodes c db b hok
  rw [StoreBlock_healthy c db hdb b key hv bv hk hh hbm]
  refine ⟨Healthy_withTables hdb _, ?_⟩
  intro k v hkv
  simp only [tablesAfter_index_apply] at hkv
  by_cases hmem : k ∈ b.body.txs.map (fun tx => c.hexBytes (c.txHash tx))
  · rw [if_pos hmem] at hkv
    have hv2 : key = v := Option.some.inj hkv
    subst hv2
    obtain ⟨t, ht, htk⟩ := List.mem_map.mp hmem
    refine ⟨b, List.mem_cons_self _ _, hk, ⟨bv, hbm, ?_⟩, t, ht, htk⟩
    simp only [tablesAfter_body_apply, if_true]
  · rw [if_neg hmem] at hkv
    obtain ⟨s, hs, hsk, ⟨sbv, hsb, hstore⟩, t, ht, htk⟩ := hinv k v hkv
    have hne : v ≠ key := by
      intro heq
      subst heq
      have h1 := hS s hs v hsk
      have h2 := hb v hk
      rw [h1] at h2
      exact hnew s hs (Except.ok.inj h2)
    refine ⟨s, List.mem_cons_of_mem _ hs, hsk, ⟨sbv, hsb, ?_⟩, t, ht, htk⟩
    simp only [tablesAfter_body_apply, if_neg hne]
    exact hstore

/-- The loop of SaveBlocks keeps the index invariant when it returns no error
and the numbers are pairwise distinct and not stored before. -/
theorem IndexConsistent_saveBlocksLoop (c : Codec) (blocks : List Block) :
    ∀ (db : DB) (S : List Block) (i : Nat) (db1 : DB), db.Healthy → IndexConsistent c db S →
      (∀ s ∈ S, c.RoundTripsNumber s.header.number) →
      (∀ b ∈ blocks, c.RoundTripsNumber b.header.number) →
      (blocks.map Block.Number64).Nodup →
      (∀ b ∈ blocks, ∀ s ∈ S, s.header.number ≠ b.header.number) →
      saveBlocksLoop c db i blocks = (db1, 0, none) →
      db1.Healthy ∧ IndexConsistent c db1 (blocks ++ S) := by
  induction blocks with
  | nil =>
    intro db S i db1 hdb hinv _ _ _ _ hrun
    simp only [saveBlocksLoop, Prod.mk.injEq, and_true] at hrun
    subst hrun
    exact ⟨hdb, by simpa using hinv⟩
  | cons b rest ih =>
    intro db S i db1 hdb hinv hS hB hnodup hfresh hrun
    cases hsb : StoreBlock c db b with
    | mk db2 r =>
      cases r with
      | some e => simp [saveBlocksLoop, hsb] at hrun
      | none =>
        simp only [saveBlocksLoop, hsb] at hrun
        have hok : (StoreBlock c db b).2 = none := by rw [hsb]
        have hstep := IndexConsistent_StoreBlock c db S b hdb hinv hS
          (hB b (List.mem_cons_self _ _)) (hfresh b (List.mem_cons_self _ _)) hok
        rw [hsb] at hstep
        have hnd : (rest.map Block.Number64).Nodup := (List.nodup_cons.mp hnodup).2
        have hnot : b.Number64 ∉ rest.map Block.Number64 := (List.nodup_cons.mp hnodup).1
        have hres := ih db2 (b :: S) (i + 1) db1 hstep.1 hstep.2
          (by
            intro s hs
            rcases List.mem_cons.mp hs with rfl | hs
            · exact hB _ (List.mem_cons_self _ _)
            · exact hS s hs)
          (fun x hx => hB x (List.mem_cons_of_mem _ hx)) hnd
          (by
            intro x hx s hs
            rcases List.mem_cons.mp hs with rfl | hs
            · intro heq
              exact hnot (List.mem_map.mpr ⟨x, hx, heq.symm⟩)
            · exact hfresh x (List.mem_cons_of_mem _ hx) s hs)
          hrun
        refine ⟨hres.1, IndexConsistent_mono c db1 _ _ ?_ hres.2⟩
        intro x hx
        simp only [List.mem_append, List.mem_cons] at hx ⊢
        tauto

theorem Get_ok_table (db : DB) (t : TableName) (k v : Bytes) (h : Get db t k = .ok v) :
    db.tables t k = some v := by
  unfold Get at h
  split at h
  · simp at h
  · split at h
    · rename_i v1 hv1
      rw [hv1, Except.ok.inj h]
    · simp at h

theorem OpenReader_ok (db : DB) (t r : TableName) (h : OpenReader db t = .ok r) : r = t := by
  unfold OpenReader at h
  split at h
  · simp at h
  · exact (Except.ok.inj h).symm

theorem OpenWriter_ok (db : DB) (t w : TableName) (h : OpenWriter db t = .ok w) : w = t := by
  unfold OpenWriter at h
  split at h
  · simp at h
  · exact (Except.ok.inj h).symm

theorem GetTransactionIndex_ok (c : Codec) (db : DB) (h : Hash) (n : Nat)
    (hidx : GetTransactionIndex c db h = .ok n) :
    ∃ v, db.tables .transactionIndex (c.hexBytes h) = some v ∧ c.fromHex v = .ok n := by
  cases hr : OpenReader db .transactionIndex with
  | error e => simp [GetTransactionIndex, hr] at hidx
  | ok r =>
    have hr2 := OpenReader_ok db _ r hr
    subst hr2
    cases hg : Get db .transactionIndex (c.hexBytes h) with
    | error e => simp [GetTransactionIndex, hr, hg] at hidx
    | ok v =>
      simp only [GetTransactionIndex, hr, hg] at hidx
      exact ⟨v, Get_ok_table db _ _ v hg, hidx⟩

/-- Claim C9 fails as stated: after two successful StoreBlock calls at number 1,
the first holding txA and the second holding txB, the index still sends the
hash of txA to number 1, whose body now holds txB only. -/
theorem index_stale_after_overwrite :
    (SaveBlocks sampleCodec DB.empty [block1, block1b]).2 = (0, none) ∧
    GetTransactionIndex sampleCodec (SaveBlocks sampleCodec DB.empty [block1, block1b]).1
      (sampleCodec.txHash txA) = .ok 1 ∧
    GetBody sampleCodec (SaveBlocks sampleCodec DB.empty [block1, block1b]).1 1
      = .ok ⟨[txB]⟩ ∧
    sampleCodec.txHash txB ≠ sampleCodec.txHash txA :=
  ⟨rfl, rfl, rfl, by decide⟩

/-- Claim C9, amended: in the store reached from the empty store by SaveBlocks
returning no error on blocks with pairwise distinct numbers, with a codec that
round-trips their numbers and bodies and an injective hash text, every
transaction-index entry txHash to n is such that GetBody at n returns a body
containing a transaction whose hash is txHash. -/
theorem index_consistent_distinct_numbers (c : Codec) (blocks : List Block) (db : DB)
    (hN : ∀ b ∈ blocks, c.RoundTripsNumber b.header.number)
    (hB : ∀ b ∈ blocks, c.RoundTripsBody b.body)
    (hhex : Function.Injective c.hexBytes)
    (hdist : (blocks.map Block.Number64).Nodup)
    (hok : SaveBlocks c DB.empty blocks = (db, 0, none))
    (h : Hash) (n : Nat) (hidx : GetTransactionIndex c db h = .ok n) :
    ∃ body, GetBody c db n = .ok body ∧ ∃ t ∈ body.txs, c.txHash t = h := by
  have hempty : IndexConsistent c DB.empty [] := by
    intro k v hkv
    simp [DB.empty] at hkv
  have hE : DB.empty.Healthy := ⟨fun _ => rfl, fun _ => rfl, fun _ _ => rfl, fun _ _ => rfl⟩
  obtain ⟨hdb, hinv⟩ := IndexConsistent_saveBlocksLoop c blocks DB.empty [] 0 db hE hempty
    (by intro s hs; simp at hs) hN hdist (by intro b _ s hs; simp at hs) hok
  obtain ⟨v, hv, hfrom⟩ := GetTransactionIndex_ok c db h n hidx
  obtain ⟨b, hb, hk, ⟨bv, hbm, hstore⟩, t, ht, htk⟩ := hinv _ v hv
  have hb2 : b ∈ blocks := by simpa using hb
  have hn : b.header.number = n := by
    have h1 := hN b hb2 v hk
    rw [h1] at hfrom
    exact Except.ok.inj hfrom
  subst hn
  refine ⟨b.body, ?_, t, ht, hhex htk⟩
  simp only [GetBody, hk, OpenReader_healthy hdb, Get_healthy hdb _ _ _ hstore, hB b hb2 bv hbm]

/-! ## The header table across several calls -/

theorem Put_entry (db : DB) (t : TableName) (k v : Bytes) (t1 : TableName) (k1 v1 : Bytes)
    (h : (Put db t k v).1.tables t1 k1 = some v1) :
    db.tables t1 k1 = some v1 ∨ (t1 = t ∧ k1 = k ∧ v1 = v) := by
  unfold Put at h
  by_cases hp : db.putFails t k = true
  · simp only [hp, if_true] at h
    exact Or.inl h
  · simp only [hp] at h
    simp only [Bool.false_eq_true, if_false, writeTable_apply] at h
    by_cases hc : t1 = t ∧ k1 = k
    · rw [if_pos hc] at h
      exact Or.inr ⟨hc.1, hc.2, (Option.some.inj h).symm⟩
    · rw [if_neg hc] at h
      exact Or.inl h

theorem Put_tables_other (db : DB) (t : TableName) (k v : Bytes) (t1 : TableName)
    (hne : t1 ≠ t) : (Put db t k v).1.tables t1 = db.tables t1 := by
  unfold Put
  by_cases hp : db.putFails t k = true
  · simp only [hp, if_true]
  · simp only [hp]
    funext k1
    simp [writeTable_apply, hne]

theorem StoreBody_headerTable (c : Codec) (db : DB) (n : Nat) (body : Option Body) :
    (StoreBody c db n body).1.tables .headerDB = db.tables .headerDB := by
  cases hk : c.marshalText n with
  | error e => simp only [StoreBody, hk]
  | ok key =>
    cases body with
    | none => simp only [StoreBody, hk]
    | some bd =>
      cases hb : c.bodyMarshal bd with
      | error e => simp only [StoreBody, hk, hb]
      | ok v =>
        cases hw : OpenWriter db .bodyDB with
        | error e => simp only [StoreBody, hk, hb, hw]
        | ok w =>
          have hw2 := OpenWriter_ok db _ w hw
          subst hw2
          simp only [StoreBody, hk, hb, hw]
          exact Put_tables_other db _ key v _ (by decide)

theorem StoreHashNumber_headerTable (c : Codec) (db : DB) (h : Hash) (n : Nat) :
    (StoreHashNumber c db h n).1.tables .headerDB = db.tables .headerDB := by
  cases hk : c.marshalText n with
  | error e => simp only [StoreHashNumber, hk]
  | ok key =>
    cases hw : OpenWriter db .hashNumberDB with
    | error e => simp only [StoreHashNumber, hk, hw]
    | ok w =>
      have hw2 := OpenWriter_ok db _ w hw
      subst hw2
      simp only [StoreHashNumber, hk, hw]
      exact Put_tables_other db _ _ key _ (by decide)

theorem StoreTransactionIndex_headerTable (c : Codec) (db : DB) (n : Nat) (h : Hash) :
    (StoreTransactionIndex c db n h).1.tables .headerDB = db.tables .headerDB := by
  cases hk : c.marshalText n with
  | error e => simp only [StoreTransactionIndex, hk]
  | ok key =>
    cases hw : OpenWriter db .transactionIndex with
    | error e => simp only [StoreTransactionIndex, hk, hw]
    | ok w =>
      have hw2 := OpenWriter_ok db _ w hw
      subst hw2
      simp only [StoreTransactionIndex, hk, hw]
      exact Put_tables_other db _ _ key _ (by decide)

theorem storeTransactionIndexes_headerTable (c : Codec) (n : Nat) (txs : List Transaction) :
    ∀ db : DB, (storeTransactionIndexes c db n txs).1.tables .headerDB
      = db.tables .headerDB := by
  induction txs with
  | nil => intro db; rfl
  | cons tx rest ih =>
    intro db
    have h1 := StoreTransactionIndex_headerTable c db n (c.txHash tx)
    cases hs : StoreTransactionIndex c db n (c.txHash tx) with
    | mk db1 r =>
      rw [hs] at h1
      cases r with
      | some e => simp only [storeTransactionIndexes, hs]; exact h1
      | none => simp only [storeTransactionIndexes, hs]; rw [ih db1]; exact h1

/-- The header table after StoreBlock is the header table after its StoreHeader. -/
theorem StoreBlock_headerTable (c : Codec) (db : DB) (b : Block) :
    (StoreBlock c db b).1.tables .headerDB = (StoreHeader c db b.Header).1.tables .headerDB := by
  cases h1 : StoreHeader c db b.Header with
  | mk db1 r1 =>
    cases r1 with
    | some e => simp only [StoreBlock, h1]
    | none =>
      have hB := StoreBody_headerTable c db1 b.Number64 b.Body
      cases h2 : StoreBody c db1 b.Number64 b.Body with
      | mk db2 r2 =>
        rw [h2] at hB
        cases r2 with
        | some e => simp only [StoreBlock, h1, h2]; exact hB
        | none =>
          have hN := StoreHashNumber_headerTable c db2 (c.headerHash b.header) b.Number64
          cases h3 : StoreHashNumber c db2 (c.headerHash b.header) b.Number64 with
          | mk db3 r3 =>
            rw [h3] at hN
            cases r3 with
            | some e => simp only [StoreBlock, h1, h2, h3]; rw [hN]; exact hB
            | none =>
              simp only [StoreBlock, h1, h2, h3]
              rw [storeTransactionIndexes_headerTable, hN]
              exact hB

theorem HeaderTableSound_mono (c : Codec) (db : DB) (S S1 : List Header)
    (hsub : ∀ x, x ∈ S → x ∈ S1) (h : HeaderTableSound c db S) : HeaderTableSound c db S1 := by
  intro k v hkv
  rcases h k v hkv with ⟨hd, hm, rest⟩ | ⟨hd, hm, rest⟩
  · exact Or.inl ⟨hd, hsub hd hm, rest⟩
  · exact Or.inr ⟨hd, hsub hd hm, rest⟩

/-- StoreHeader writes only the record of its header under the number key and
the number key under the raw hash bytes. -/
theorem HeaderTableSound_StoreHeader (c : Codec) (db : DB) (S : List Header) (ih : IHeader)
    (hinv : HeaderTableSound c db S) :
    HeaderTableSound c (StoreHeader c db ih).1 ((StoreOp.storeHeader ih).headers ++ S) := by
  have hold : HeaderTableSound c db ((StoreOp.storeHeader ih).headers ++ S) :=
    HeaderTableSound_mono c db S _ (fun x hx => List.mem_append_right _ hx) hinv
  cases ih with
  | other => exact hold
  | header hd =>
    cases hk : c.marshalText hd.number with
    | error e => simp only [StoreHeader, hk]; exact hold
    | ok key =>
      cases hh : c.headerMarshal hd with
      | error e => simp only [StoreHeader, hk, hh]; exact hold
      | ok v =>
        cases hw : OpenWriter db .headerDB with
        | error e => simp only [StoreHeader, hk, hh, hw]; exact hold
        | ok w =>
          have hw2 := OpenWriter_ok db _ w hw
          subst hw2
          simp only [StoreHeader, hk, hh, hw]
          intro k1 v1 hkv
          have hmem : hd ∈ (StoreOp.storeHeader (.header hd)).headers ++ S := by
            simp [StoreOp.headers]
          rcases Put_entry _ _ _ _ _ _ _ hkv with h1 | ⟨_, h2, h3⟩
          · rcases Put_entry _ _ _ _ _ _ _ h1 with h4 | ⟨_, h5, h6⟩
            · exact hold k1 v1 h4
            · subst h5 h6
              exact Or.inl ⟨hd, hmem, hk, hh⟩
          · subst h2 h3
            exact Or.inr ⟨hd, hmem, rfl, hk⟩

theorem HeaderTableSound_run (c : Codec) (db : DB) (S : List Header) (op : StoreOp)
    (hinv : HeaderTableSound c db S) :
    HeaderTableSound c (op.run c db) (op.headers ++ S) := by
  cases op with
  | storeHeader ih => exact HeaderTableSound_StoreHeader c db S ih hinv
  | storeBlock b =>
    have h := HeaderTableSound_StoreHeader c db S b.Header hinv
    intro k v hkv
    simp only [StoreOp.run, StoreBlock_headerTable] at hkv
    exact h k v hkv

theorem HeaderTableSound_runOps (c : Codec) (ops : List StoreOp) :
    ∀ (db : DB) (S : List Header), HeaderTableSound c db S →
      HeaderTableSound c (runOps c db ops) (headersOf ops ++ S) := by
  induction ops with
  | nil => intro db S h; simpa [runOps, headersOf] using h
  | cons op rest ih =>
    intro db S h
    have h1 := ih (op.run c db) (op.headers ++ S) (HeaderTableSound_run c db S op h)
    have h2 : runOps c db (op :: rest) = runOps c (op.run c db) rest := rfl
    rw [h2]
    refine HeaderTableSound_mono c _ _ _ ?_ h1
    intro x hx
    have h3 : headersOf (op :: rest) = op.headers ++ headersOf rest := rfl
    rw [h3]
    simp only [List.mem_append] at hx ⊢
    tauto

/-- Claim C10 fails as stated.  First part: after StoreBlock of two blocks with
different headers at number 1, GetHeaderByHash at the hash of the first header
succeeds and returns the second header and its hash, which is not the hash
asked for.  Second part: with a codec whose text key of number 2 is the raw
byte string of the hash asked for, after one StoreHeader at number 2,
GetHeaderByHash succeeds and returns the stored header, whose hash is not the
hash asked for. -/
theorem hash_lookup_returns_other_header :
    (GetHeaderByHash sampleCodec
        (runOps sampleCodec DB.empty [.storeBlock block1, .storeBlock block1b])
        (sampleCodec.headerHash block1.header)
      = .ok (block1b.header, sampleCodec.headerHash block1b.header) ∧
      sampleCodec.headerHash block1b.header ≠ sampleCodec.headerHash block1.header) ∧
    (tinyCodec.marshalText 2 = .ok (sampleHash 0 2).bytes ∧
      GetHeaderByHash tinyCodec
        (runOps tinyCodec DB.empty [.storeHeader (.header (sampleHeader 2 []))])
        (sampleHash 0 2)
      = .ok (sampleHeader 2 [], tinyCodec.headerHash (sampleHeader 2 [])) ∧
      tinyCodec.headerHash (sampleHeader 2 []) ≠ sampleHash 0 2) :=
  ⟨⟨rfl, by decide⟩, ⟨rfl, rfl, by decide⟩⟩

/-- Claim C10, amended: in every store reached from a store with empty tables
by StoreHeader and StoreBlock calls in which headers stored under the same
number key have the same hash, with a codec that round-trips these headers,
and when the text key of no stored number is the raw byte string of the hash
of a stored header or of the hash h asked for, whenever GetHeaderByHash at h
succeeds the hash it returns, the hash of the returned header, equals h. -/
theorem hash_lookup_returns_requested_hash (c : Codec) (ops : List StoreOp) (db0 : DB)
    (h : Hash)
    (hempty : ∀ t k, db0.tables t k = none)
    (hRT : ∀ hd ∈ headersOf ops, c.RoundTripsHeader hd)
    (hsame : ∀ h1 ∈ headersOf ops, ∀ h2 ∈ headersOf ops, ∀ k,
      c.marshalText h1.number = .ok k → c.marshalText h2.number = .ok k →
      c.headerHash h1 = c.headerHash h2)
    (hsepS : ∀ h1 ∈ headersOf ops, ∀ h2 ∈ headersOf ops,
      c.KeyApart h1.number (c.headerHash h2))
    (hsepQ : ∀ h1 ∈ headersOf ops, c.KeyApart h1.number h)
    (hd : Header) (hh : Hash)
    (hget : GetHeaderByHash c (runOps c db0 ops) h = .ok (hd, hh)) :
    hh = h ∧ c.headerHash hd = h := by
  have h0 : HeaderTableSound c db0 [] := by
    intro k v hkv
    rw [hempty] at hkv
    cases hkv
  have hinv := HeaderTableSound_runOps c ops db0 [] h0
  rw [List.append_nil] at hinv
  generalize runOps c db0 ops = db at hget hinv
  cases hr : OpenReader db .headerDB with
  | error e => simp [GetHeaderByHash, hr] at hget
  | ok r =>
    have hr2 := OpenReader_ok db _ r hr
    subst hr2
    cases hg1 : Get db .headerDB h.bytes with
    | error e => simp [GetHeaderByHash, hr, hg1] at hget
    | ok key =>
      cases hg2 : Get db .headerDB key with
      | error e => simp [GetHeaderByHash, hr, hg1, hg2] at hget
      | ok v =>
        cases hu : c.headerUnmarshal v with
        | error e => simp [GetHeaderByHash, hr, hg1, hg2, hu] at hget
        | ok hdr =>
          simp only [GetHeaderByHash, hr, hg1, hg2, hu, Except.ok.injEq, Prod.mk.injEq] at hget
          obtain ⟨e1, e2⟩ := hget
          subst e1
          rcases hinv _ _ (Get_ok_table db _ _ _ hg1) with ⟨x, hxm, hx, _⟩ | ⟨x, hxm, hx1, hx2⟩
          · exact absurd rfl (hsepQ x hxm _ hx)
          · rcases hinv _ _ (Get_ok_table db _ _ _ hg2) with ⟨y, hym, hy1, hy2⟩ | ⟨y, hym, hy1, _⟩
            · have hdec := hRT y hym v hy2
              rw [hu] at hdec
              have hy : hdr = y := Except.ok.inj hdec
              have hhash : c.headerHash hdr = h := by
                rw [hy, hsame y hym x hxm key hy1 hx2]
                exact (Hash.eq_of_bytes _ _ hx1).symm
              exact ⟨e2 ▸ hhash, hhash⟩
            · exact absurd hy1 (hsepS x hxm y hym key hx2)

/-! ## Facts about the concrete codec -/

theorem hexDigit_injective {d e : Nat} (h : hexDigit d = hexDigit e) : d = e := by
  unfold hexDigit at h
  split at h <;> split at h <;> omega

theorem hexText_injective : ∀ l1 l2 : Bytes, hexText l1 = hexText l2 → l1 = l2 := by
  intro l1
  induction l1 with
  | nil =>
    intro l2 h
    cases l2 with
    | nil => rfl
    | cons b l2 => simp [hexText] at h
  | cons a l1 ih =>
    intro l2 h
    cases l2 with
    | nil => simp [hexText] at h
    | cons b l2 =>
      simp only [hexText, List.foldr_cons, List.cons.injEq] at h
      obtain ⟨h1, h2, h3⟩ := h
      have e1 := hexDigit_injective h1
      have e2 := hexDigit_injective h2
      have hab : a = b := by omega
      rw [hab, ih l2 h3]

theorem sampleHexBytes_injective : Function.Injective sampleCodec.hexBytes := by
  intro h1 h2 h
  exact Hash.eq_of_bytes h1 h2 (hexText_injective _ _ h)

theorem sampleCodec_keyApart (n : Nat) (x : Hash) : sampleCodec.KeyApart n x := by
  intro k hk heq
  have hlen : k.length = 64 := by
    simp only [sampleCodec] at hk
    split at hk
    · rw [← Except.ok.inj hk]
      exact fixedHex_length 64 n
    · simp at hk
  rw [heq, x.size] at hlen
  omega

theorem lex_irrefl : ∀ l : Bytes, ¬ List.Lex (· < ·) l l := by
  intro l
  induction l with
  | nil => intro h; cases h
  | cons a l ih =>
    intro h
    cases h with
    | cons h1 => exact ih h1
    | rel h1 => exact Nat.lt_irrefl _ h1

theorem fixedHex_injective (w a b : Nat) (ha : a < 16 ^ w) (hb : b < 16 ^ w)
    (h : fixedHex w a = fixedHex w b) : a = b := by
  rcases Nat.lt_trichotomy a b with hlt | heq | hgt
  · have hl := fixedHex_lt w a b (by rw [Nat.mod_eq_of_lt ha, Nat.mod_eq_of_lt hb]; exact hlt)
    rw [h] at hl
    exact absurd hl (lex_irrefl _)
  · exact heq
  · have hl := fixedHex_lt w b a (by rw [Nat.mod_eq_of_lt ha, Nat.mod_eq_of_lt hb]; exact hgt)
    rw [h] at hl
    exact absurd hl (lex_irrefl _)

theorem sampleCodec_key_injective (m n : Nat) (k : Bytes)
    (hm : sampleCodec.marshalText m = .ok k) (hn : sampleCodec.marshalText n = .ok k) :
    m = n := by
  have h16 : (16 : Nat) ^ 64 = 2 ^ 256 := by norm_num
  simp only [sampleCodec] at hm hn
  split at hm
  · split at hn
    · rename_i h1 h2
      have e1 := Except.ok.inj hm
      have e2 := Except.ok.inj hn
      exact fixedHex_injective 64 m n (by omega) (by omega) (e1.trans e2.symm)
    · simp at hn
  · simp at hm

/-! ## The theorems at concrete inputs -/

/-- GetTransaction at the hash of txB after StoreBlock of block0 into the empty store. -/
theorem store_block_then_get_transaction_witness :
    ∃ tx i, GetTransaction sampleCodec (StoreBlock sampleCodec DB.empty block0).1
          (sampleCodec.txHash txB)
        = ⟨some tx, sampleCodec.headerHash block0.header, block0.Number64, i, none⟩ ∧
      block0.body.txs[i]? = some tx ∧ sampleCodec.txHash tx = sampleCodec.txHash txB ∧
      (∀ k, k < i → ∀ tk, block0.body.txs[k]? = some tk →
        sampleCodec.txHash tk ≠ sampleCodec.txHash txB) ∧
      ((∀ t1 ∈ block0.Transactions, sampleCodec.txHash t1 = sampleCodec.txHash txB → t1 = txB) →
        tx = txB) :=
  store_block_then_get_transaction sampleCodec DB.empty block0 txB
    ⟨fun _ => rfl, fun _ => rfl, fun _ _ => rfl, fun _ _ => rfl⟩
    (fun v hv => by cases hv; rfl) (fun v hv => by cases hv; rfl)
    (fun k hk => by cases hk; rfl)
    (sampleCodec_keyApart _ _)
    (by simp [Block.Transactions, block0])
    rfl

/-- GetGenesis after StoreGenesis of block0 into the empty store. -/
theorem store_genesis_then_get_witness :
    ∃ blk, GetGenesis sampleCodec (StoreGenesis sampleCodec DB.empty block0).1 = .ok blk ∧
      blk = block0 ∧ blk.Number64 = 0 :=
  store_genesis_then_get sampleCodec DB.empty block0
    ⟨fun _ => rfl, fun _ => rfl, fun _ _ => rfl, fun _ _ => rfl⟩
    (fun v hv => by cases hv; rfl) (fun v hv => by cases hv; rfl)
    (sampleCodec_keyApart _ _) rfl rfl

/-- After SaveBlocks of block0 and block2 the index entry of txB points at number 2, whose body holds txB. -/
theorem index_consistent_distinct_numbers_witness :
    ∃ body, GetBody sampleCodec (SaveBlocks sampleCodec DB.empty [block0, block2]).1 2
        = .ok body ∧
      ∃ t ∈ body.txs, sampleCodec.txHash t = sampleCodec.txHash txB :=
  index_consistent_distinct_numbers sampleCodec [block0, block2]
    (SaveBlocks sampleCodec DB.empty [block0, block2]).1
    (by
      intro b hb
      simp only [List.mem_cons, List.mem_singleton, List.not_mem_nil, or_false] at hb
      rcases hb with rfl | rfl <;> exact fun k hk => by cases hk; rfl)
    (by
      intro b hb
      simp only [List.mem_cons, List.mem_singleton, List.not_mem_nil, or_false] at hb
      rcases hb with rfl | rfl <;> exact fun v hv => by cases hv; rfl)
    sampleHexBytes_injective (by decide) rfl (sampleCodec.txHash txB) 2 rfl

/-- After three calls at numbers 0, 1 and 2 the lookup at the hash of the second header returns that header. -/
theorem hash_lookup_returns_requested_hash_witness :
    GetHeaderByHash sampleCodec
        (runOps sampleCodec DB.empty
          [.storeBlock block0, .storeHeader (.header block1.header), .storeBlock block2])
        (sampleHash 0 1)
      = .ok (block1.header, sampleCodec.headerHash block1.header) ∧
    sampleCodec.headerHash block1.header = sampleHash 0 1 ∧
    sampleCodec.headerHash block1.header = sampleHash 0 1 :=
  ⟨rfl, hash_lookup_returns_requested_hash sampleCodec
    [.storeBlock block0, .storeHeader (.header block1.header), .storeBlock block2] DB.empty
    (sampleHash 0 1)
    (fun _ _ => rfl)
    (by
      intro hd hm
      simp only [headersOf, StoreOp.headers, List.foldr_cons, List.foldr_nil, List.cons_append,
        List.nil_append, List.mem_cons, List.mem_singleton, List.not_mem_nil, or_false] at hm
      rcases hm with rfl | rfl | rfl <;> exact fun v hv => by cases hv; rfl)
    (by
      intro h1 hm1 h2 hm2
      simp only [headersOf, StoreOp.headers, List.foldr_cons, List.foldr_nil, List.cons_append,
        List.nil_append, List.mem_cons, List.mem_singleton, List.not_mem_nil, or_false] at hm1 hm2
      rcases hm1 with rfl | rfl | rfl <;> rcases hm2 with rfl | rfl | rfl <;>
        first
          | exact fun _ _ _ => rfl
          | exact fun k e1 e2 => absurd (sampleCodec_key_injective _ _ k e1 e2) (by decide))
    (fun _ _ _ _ => sampleCodec_keyApart _ _)
    (fun _ _ => sampleCodec_keyApart _ _)
    block1.header (sampleCodec.headerHash block1.header) rfl⟩

end Amc
